import Mathlib

/-!
Shallow embedding of `src/gpt3.py`: an agent loop in which a language model
drives a set-top-box GUI.  Python strings are modelled as lists of
characters; `re.sub(pat, "", s)` is modelled as a single left-to-right pass
deleting non-overlapping matches; the loop of `run_test` is modelled as a
step function over an explicit state, driven by per-iteration external
inputs (what `exec` did, what the page detector yielded).
-/

/-- Python strings, modelled as lists of characters. -/
abbrev Str := List Char

/-- Boolean test that `pat` is a prefix of `s` (character-wise equality). -/
def begins : Str → Str → Bool
  | [], _ => true
  | _ :: _, [] => false
  | a :: as, b :: bs => a = b && begins as bs

/-- Length of the regex match `is_visible=True(, )?` at the head of `s`
(the optional group is matched greedily, as in Python), `none` when the
pattern does not match there. -/
def visMatchLen (s : Str) : Option Nat :=
  if begins "is_visible=True, ".toList s then some 17
  else if begins "is_visible=True".toList s then some 15
  else none

/-- Length of the regex match `_frame=<([^>]+)>(, )?` at the head of `s`:
the literal `_frame=<`, then at least one character other than `>` (the
greedy `[^>]+` can only reach the first `>`), then `>`, then an optional
greedy `, `. -/
def frameMatchLen (s : Str) : Option Nat :=
  if begins "_frame=<".toList s then
    let rest := s.drop 8
    let inner := rest.takeWhile (fun c => c ≠ '>')
    if inner.isEmpty then none
    else if (rest.drop inner.length).head? = some '>' then
      let base := 8 + inner.length + 1
      if begins ", ".toList (s.drop base) then some (base + 2) else some base
    else none
  else none

/-- One pass of `re.sub(pat, "", s)` for a pattern given by its head
matcher `f`: scan left to right, delete each match, resume scanning right
after the deleted text.  `fuel` bounds the recursion; since every match of
the two patterns above is non-empty, `s.length` fuel always suffices. -/
def subPatFuel (f : Str → Option Nat) : Nat → Str → Str
  | 0, s => s
  | _ + 1, [] => []
  | fuel + 1, c :: rest =>
    match f (c :: rest) with
    | some n => subPatFuel f fuel ((c :: rest).drop n)
    | none => c :: subPatFuel f fuel rest

/-- The substitution `re.sub(r"is_visible=True(, )?", "", s)` (src/gpt3.py line 162). -/
def sub_visible (s : Str) : Str := subPatFuel visMatchLen s.length s

/-- The substitution `re.sub(r"_frame=<([^>]+)>(, )?", "", s)` (src/gpt3.py line 163). -/
def sub_frame (s : Str) : Str := subPatFuel frameMatchLen s.length s

/-- The two stripping substitutions of `describe_page`, in source order. -/
def strip_repr (s : Str) : Str := sub_frame (sub_visible s)

/-- Whether the pattern given by head matcher `f` matches anywhere in `s`. -/
def hasPat (f : Str → Option Nat) : Str → Bool
  | [] => (f []).isSome
  | c :: rest => (f (c :: rest)).isSome || hasPat f rest

/-- Membership of `c` in the regex character class `[a-z]`. -/
def isLowerAZ (c : Char) : Bool := 'a' ≤ c && c ≤ 'z'

/-- Model of `re.search(r"^tests\.([a-z]+)\.pages", module)` (src/gpt3.py line 164),
returning the captured group when the anchored pattern matches and
`"unknown"` otherwise.  The greedy `[a-z]+` can only match the maximal run
of lowercase letters following `"tests."`, and `\.pages` must follow that
run. -/
def extract_app_name (module : Str) : Str :=
  if begins "tests.".toList module then
    let t := module.drop 6
    let name := t.takeWhile isLowerAZ
    if name.isEmpty then "unknown".toList
    else if begins ".pages".toList (t.dropWhile isLowerAZ) then name
    else "unknown".toList
  else "unknown".toList

/-- A bound method of a page object: its name and the rendering of
`inspect.signature` (parentheses included). -/
structure Method where
  name : Str
  signature : Str
deriving DecidableEq

/-- A detected page object (`stbt.FrameObject`): its `repr` (with all lazy
properties already forced, as `describe_page` does before printing), its
type's `__module__`, its `is_visible` flag, and its bound methods in class
declaration (discovery) order. -/
structure Page where
  rep : Str
  module : Str
  is_visible : Bool
  methods : List Method
deriving DecidableEq

/-- Model of `describe_page` (src/gpt3.py lines 156-168): force the properties, take
the repr, strip the visibility marker and the frame back-reference, derive
the app name from the page type's module, and return
`f"<{app_name}.{s[1:]}"`. -/
def describe_page (page : Page) : Str :=
  let s := sub_visible page.rep
  let s2 := sub_frame s
  let app_name := extract_app_name page.module
  '<' :: (app_name ++ '.' :: s2.drop 1)

/-- The alias normalization of `launch_app` (src/gpt3.py lines 185-192):
lower-case the name, delete its spaces, look the result up in the alias
table, and fall back to the original name when it is not a key.  The
subsequent `Home.launch_app(name)` call is an external stbt action and is
not modelled; this function returns the resolved name passed to it. -/
def launch_app (name : Str) : Str :=
  let key := (name.map Char.toLower).filter (fun c => c ≠ ' ')
  if key = "btsport".toList then "BT Sport".toList
  else if key = "youtube".toList then "YouTube".toList
  else name

/-! ### Support lemmas about the string-level definitions -/

lemma begins_append (p t : Str) : begins p (p ++ t) = true := by
  induction p with
  | nil => rfl
  | cons a as ih => simp [begins, ih]

lemma begins_iff (p s : Str) : begins p s = true ↔ ∃ t : Str, s = p ++ t := by
  induction p generalizing s with
  | nil => simp [begins]
  | cons a as ih =>
    cases s with
    | nil => simp [begins]
    | cons b bs =>
      simp only [begins, Bool.and_eq_true, decide_eq_true_eq, ih]
      constructor
      · rintro ⟨rfl, t, rfl⟩; exact ⟨t, rfl⟩
      · rintro ⟨t, ht⟩
        injection ht with h1 h2
        exact ⟨h1.symm, t, h2⟩

lemma subPatFuel_of_not_hasPat (f : Str → Option Nat) :
    ∀ (fuel : Nat) (s : Str), hasPat f s = false → subPatFuel f fuel s = s := by
  intro fuel
  induction fuel with
  | zero => intro s _; rfl
  | succ n ih =>
    intro s h
    cases s with
    | nil => rfl
    | cons c rest =>
      have h2 : (f (c :: rest)).isSome = false ∧ hasPat f rest = false := by
        simpa [hasPat] using h
      have h3 : f (c :: rest) = none := by
        cases hf : f (c :: rest) with
        | none => rfl
        | some n => rw [hf] at h2; simp at h2
      simp [subPatFuel, h3, ih rest h2.2]

lemma takeWhile_append_cons (p : Char → Bool) (l1 l2 : Str) (y : Char)
    (h1 : ∀ c ∈ l1, p c = true) (h2 : p y = false) :
    (l1 ++ y :: l2).takeWhile p = l1 ∧ (l1 ++ y :: l2).dropWhile p = y :: l2 := by
  induction l1 with
  | nil => simp [List.takeWhile, List.dropWhile, h2]
  | cons a as ih =>
    have ha : p a = true := h1 a (by simp)
    have hrest := ih (fun c hc => h1 c (by simp [hc]))
    simp [List.takeWhile, List.dropWhile, ha, hrest.1, hrest.2]

lemma mem_takeWhile_isLowerAZ :
    ∀ (l : Str) (c : Char), c ∈ l.takeWhile isLowerAZ → isLowerAZ c = true := by
  intro l
  induction l with
  | nil => intro c hc; simp [List.takeWhile] at hc
  | cons a as ih =>
    intro c hc
    by_cases ha : isLowerAZ a = true
    · rw [List.takeWhile, ha] at hc
      rcases List.mem_cons.mp hc with rfl | hc
      · exact ha
      · exact ih c hc
    · have ha2 : isLowerAZ a = false := by
        cases hb : isLowerAZ a
        · rfl
        · exact absurd hb ha
      rw [List.takeWhile, ha2] at hc
      simp at hc

lemma extract_app_name_of_shape (name rest : Str) (hne : name ≠ [])
    (hlow : ∀ c ∈ name, isLowerAZ c = true) :
    extract_app_name ("tests.".toList ++ name ++ ".pages".toList ++ rest) = name := by
  have e1 : "tests.".toList ++ name ++ ".pages".toList ++ rest
      = "tests.".toList ++ (name ++ '.' :: ("pages".toList ++ rest)) := by
    rw [List.append_assoc, List.append_assoc]
    rfl
  rw [e1]
  have hb : begins "tests.".toList
      ("tests.".toList ++ (name ++ '.' :: ("pages".toList ++ rest))) = true :=
    begins_append _ _
  have hdrop : ("tests.".toList ++ (name ++ '.' :: ("pages".toList ++ rest))).drop 6
      = name ++ '.' :: ("pages".toList ++ rest) := rfl
  have htw := takeWhile_append_cons isLowerAZ name ("pages".toList ++ rest) '.'
    hlow (by decide)
  have hnemp : name.isEmpty = false := by
    cases name with
    | nil => exact absurd rfl hne
    | cons a as => rfl
  have hb2 : begins ".pages".toList ('.' :: ("pages".toList ++ rest)) = true :=
    begins_append ".pages".toList rest
  simp only [extract_app_name]
  rw [if_pos hb, hdrop]
  rw [htw.1, htw.2]
  rw [if_neg (by simp [hnemp]), if_pos hb2]

lemma extract_app_name_eq_unknown (module : Str)
    (h : ¬ ∃ name rest : Str, name ≠ [] ∧ (∀ c ∈ name, isLowerAZ c = true) ∧
      module = "tests.".toList ++ name ++ ".pages".toList ++ rest) :
    extract_app_name module = "unknown".toList := by
  by_cases h1 : begins "tests.".toList module = true
  case neg =>
    simp only [extract_app_name]
    rw [if_neg h1]
  case pos =>
    obtain ⟨t, rfl⟩ := (begins_iff _ _).mp h1
    have hdrop : ("tests.".toList ++ t).drop 6 = t := rfl
    by_cases h2 : (t.takeWhile isLowerAZ).isEmpty = true
    · simp only [extract_app_name]
      rw [if_pos h1, hdrop, if_pos h2]
    · have h2f : (t.takeWhile isLowerAZ).isEmpty = false := by
        cases hb : (t.takeWhile isLowerAZ).isEmpty
        · rfl
        · exact absurd hb h2
      by_cases h3 : begins ".pages".toList (t.dropWhile isLowerAZ) = true
      · exfalso
        apply h
        obtain ⟨r, hr⟩ := (begins_iff _ _).mp h3
        refine ⟨t.takeWhile isLowerAZ, r, ?_, ?_, ?_⟩
        · intro hnil
          rw [hnil] at h2f
          simp at h2f
        · exact fun c hc => mem_takeWhile_isLowerAZ t c hc
        · rw [List.append_assoc, List.append_assoc]
          refine congrArg ("tests.".toList ++ ·) ?_
          conv_lhs => rw [← List.takeWhile_append_dropWhile (p := isLowerAZ) (l := t)]
          rw [hr]
      · simp only [extract_app_name]
        rw [if_pos h1, hdrop, if_neg h2, if_neg h3]

/-- Claim C5: the app name derived from the page type's module is the
lowercase `<name>` component when the module path matches the anchored
pattern `tests.<name>.pages`, and is exactly the literal `"unknown"` when
no such match exists. -/
theorem app_name_extraction :
    (∀ name rest : Str, name ≠ [] → (∀ c ∈ name, isLowerAZ c = true) →
      extract_app_name ("tests.".toList ++ name ++ ".pages".toList ++ rest) = name) ∧
    (∀ module : Str,
      (¬ ∃ name rest : Str, name ≠ [] ∧ (∀ c ∈ name, isLowerAZ c = true) ∧
        module = "tests.".toList ++ name ++ ".pages".toList ++ rest) →
      extract_app_name module = "unknown".toList) :=
  ⟨fun name rest h1 h2 => extract_app_name_of_shape name rest h1 h2,
   fun module h => extract_app_name_eq_unknown module h⟩

/-- Witness for `app_name_extraction`: the two examples named by the spec. -/
theorem app_name_extraction_witness :
    extract_app_name "tests.appletv.pages".toList = "appletv".toList ∧
    extract_app_name "foo".toList = "unknown".toList := by
  constructor
  · exact app_name_extraction.1 "appletv".toList [] (by decide) (by decide)
  · refine app_name_extraction.2 "foo".toList ?_
    rintro ⟨name, rest, hne, hlow, he⟩
    have h1 : ("foo".toList).head? = some 'f' := rfl
    have h2 : ("tests.".toList ++ name ++ ".pages".toList ++ rest).head? = some 't' := by
      rw [List.append_assoc, List.append_assoc]
      rfl
    rw [he] at h1
    rw [h1] at h2
    exact absurd h2 (by decide)

/-- Claim C4 (amended): the stripping pass of `describe_page` removes the
non-overlapping left-to-right matches of the two noise patterns in one
pass; whenever the resulting string contains no remaining match of either
pattern — which can fail only when a deletion juxtaposes fragments of the
input into a new occurrence — applying the stripping step a second time
returns it unchanged. -/
theorem strip_repr_idempotent_when_clean (s : Str)
    (h1 : hasPat visMatchLen (strip_repr s) = false)
    (h2 : hasPat frameMatchLen (strip_repr s) = false) :
    strip_repr (strip_repr s) = strip_repr s := by
  show sub_frame (sub_visible (strip_repr s)) = strip_repr s
  rw [show sub_visible (strip_repr s) = strip_repr s from
      subPatFuel_of_not_hasPat visMatchLen (strip_repr s).length (strip_repr s) h1,
    show sub_frame (strip_repr s) = strip_repr s from
      subPatFuel_of_not_hasPat frameMatchLen (strip_repr s).length (strip_repr s) h2]

/-- Witness for `strip_repr_idempotent_when_clean` at a typical repr. -/
theorem strip_repr_idempotent_witness :
    strip_repr (strip_repr "<R(is_visible=True, x=1)>".toList) =
      strip_repr "<R(is_visible=True, x=1)>".toList :=
  strip_repr_idempotent_when_clean "<R(is_visible=True, x=1)>".toList
    (by decide) (by decide)

/-- Claim C4 (counterexample): a single `re.sub` pass can create a new
occurrence of the visibility marker by juxtaposing fragments around a
deleted match, so the stripped string can still contain the literal
`is_visible=True` and stripping a second time changes the string. -/
theorem strip_repr_counterexample :
    ("is_visible=True".toList <:+:
      strip_repr "is_visibis_visible=Truele=True".toList) ∧
    strip_repr (strip_repr "is_visibis_visible=Truele=True".toList) ≠
      strip_repr "is_visibis_visible=Truele=True".toList := by
  constructor
  · have h : strip_repr "is_visibis_visible=Truele=True".toList
        = "is_visible=True".toList := by decide
    rw [h]
  · decide

/-- Claim C8: `launch_app` normalizes its argument case-insensitively with
all spaces removed against the fixed alias table — every spelling of
btsport resolves to `"BT Sport"`, every casing/spacing of youtube resolves
to `"YouTube"`, and any name whose normalization is not an alias key is
passed through unchanged. -/
theorem launch_app_aliases :
    launch_app "BTSPORT".toList = "BT Sport".toList ∧
    launch_app "bt sport".toList = "BT Sport".toList ∧
    launch_app "btsport".toList = "BT Sport".toList ∧
    (∀ s : Str, (s.map Char.toLower).filter (fun c => c ≠ ' ') = "youtube".toList →
      launch_app s = "YouTube".toList) ∧
    (∀ s : Str, (s.map Char.toLower).filter (fun c => c ≠ ' ') ≠ "btsport".toList →
      (s.map Char.toLower).filter (fun c => c ≠ ' ') ≠ "youtube".toList →
      launch_app s = s) := by
  refine ⟨by decide, by decide, by decide, ?_, ?_⟩
  · intro s h
    show (if (s.map Char.toLower).filter (fun c => c ≠ ' ') = "btsport".toList
          then "BT Sport".toList
          else if (s.map Char.toLower).filter (fun c => c ≠ ' ') = "youtube".toList
          then "YouTube".toList else s) = "YouTube".toList
    rw [h, if_neg (by decide), if_pos rfl]
  · intro s h1 h2
    show (if (s.map Char.toLower).filter (fun c => c ≠ ' ') = "btsport".toList
          then "BT Sport".toList
          else if (s.map Char.toLower).filter (fun c => c ≠ ' ') = "youtube".toList
          then "YouTube".toList else s) = s
    rw [if_neg h1, if_neg h2]

/-- Witness for `launch_app_aliases`: an uncased, spaced youtube spelling
and an unrecognized name. -/
theorem launch_app_aliases_witness :
    launch_app "YOU TUBE".toList = "YouTube".toList ∧
    launch_app "My Custom App".toList = "My Custom App".toList :=
  ⟨launch_app_aliases.2.2.2.1 "YOU TUBE".toList (by decide),
   launch_app_aliases.2.2.2.2 "My Custom App".toList (by decide) (by decide)⟩

/-- Claim C10: `describe_page` returns exactly `"<" ++ appName ++ "." ++ t`
where `t` is the stripped repr of the page with its first character
removed: the output always begins with `<` followed by the app name and a
dot, and the first character of the stripped representation is dropped
unconditionally — also when the page's repr does not begin with `<`. -/
theorem describe_page_shape (page : Page) :
    describe_page page =
      "<".toList ++ extract_app_name page.module ++ ".".toList ++
        (strip_repr page.rep).drop 1 ∧
    (describe_page page).head? = some '<' := by
  constructor
  · show '<' :: (extract_app_name page.module ++ '.' :: (strip_repr page.rep).drop 1)
        = "<".toList ++ extract_app_name page.module ++ ".".toList ++
          (strip_repr page.rep).drop 1
    simp
  · rfl

/-! ### The control loop of `run_test` -/

/-- One `(previous page description, command, outcome)` triple of the
`previous_commands` history list. -/
structure HistoryEntry where
  prev_desc : Str
  command : Str
  outcome : Str
deriving DecidableEq

/-- One line of the HISTORY block of the prompt: `f"    {a} : {b}"` for a
history triple `(a, b, c)` (src/gpt3.py lines 134-135). -/
def render_history_line (e : HistoryEntry) : Str :=
  "    ".toList ++ e.prev_desc ++ " : ".toList ++ e.command

/-- The HISTORY block: `"\n".join(...)` over the rendered lines. -/
def render_history (h : List HistoryEntry) : Str :=
  List.intercalate "\n".toList (h.map render_history_line)

/-- The four exception classes of the `except` clause
(src/gpt3.py line 102). -/
inductive CaughtClass
  | syntaxError
  | nameError
  | attributeError
  | fileNotFoundError
deriving DecidableEq

/-- The name of each of the four whitelisted exception classes. -/
def className : CaughtClass → Str
  | .syntaxError => "SyntaxError".toList
  | .nameError => "NameError".toList
  | .attributeError => "AttributeError".toList
  | .fileNotFoundError => "FileNotFoundError".toList

/-- A caught exception: Python's `except (SyntaxError, NameError,
AttributeError, FileNotFoundError)` catches every instance of these four
classes, including instances of their subclasses, so a caught exception
carries the whitelisted base class it is an instance of together with its
own dynamic class name `type(e).__name__` — equal to the base class's name
for a direct instance, and to the subclass's name for a subclass instance,
e.g. `IndentationError` (a `SyntaxError` subclass, raised by executing the
truncated statement `if True:`) or `UnboundLocalError` (a `NameError`
subclass). -/
structure CaughtError where
  base : CaughtClass
  typeName : Str
deriving DecidableEq

/-- The recorded outcome name `type(e).__name__` (src/gpt3.py line 117):
the dynamic class name of the caught exception instance. -/
def errName (e : CaughtError) : Str := e.typeName

/-- The names of the four whitelisted error classes themselves. -/
def errorNames : List Str :=
  ["SyntaxError".toList, "NameError".toList, "AttributeError".toList,
   "FileNotFoundError".toList]

/-- What running `exec(command)` did: it ran to completion (carrying the
value the executed statement itself evaluated to), it raised one of the
four whitelisted exceptions, or it raised an exception of any other
kind. -/
inductive ExecOutcome
  | ok (value : Option Page)
  | caught (e : CaughtError)
  | uncaught
deriving DecidableEq

/-- The external inputs of one loop iteration: the command chosen for it
(model suggestion or operator override), what executing it did, and the
page `stbt.wait_until(lambda: next(stbt.detect_pages(), None),
timeout_secs=3)` would yield (`none` = nothing detected within the
3-second timeout). -/
structure IterInput where
  command : Str
  exec : ExecOutcome
  detected : Option Page
deriving DecidableEq

/-- The value of the Python expression `exec(command)`: the builtin `exec`
always returns `None`, whatever value the executed statement itself
produced. -/
def execReturnValue : Option Page → Option Page := fun _ => none

/-- The loop-carried state of `run_test`: the current page and the
`previous_commands` history list. -/
structure LoopState where
  page : Page
  history : List HistoryEntry
deriving DecidableEq

/-- How one loop iteration ended: continue with a new state, abort on the
`assert page` after a detection timeout, or terminate because an uncaught
exception propagated out of the loop (state unchanged in the latter two
cases). -/
inductive StepResult
  | next (st : LoopState)
  | fatalDetect (st : LoopState)
  | propagated (st : LoopState)
deriving DecidableEq

/-- One iteration of the `while True` loop of `run_test`
(src/gpt3.py lines 95-120), from `time.sleep(1)` onwards: run the command
(`ret` stays `None` when `exec` raises, and is the return value of `exec`
— always `None` — when it does not), adopt `ret` if it is a visible
`FrameObject`, otherwise poll detection and `assert page`, then append the
history entry. -/
def loop_step (st : LoopState) (inp : IterInput) : StepResult :=
  let prev_page := st.page
  match inp.exec with
  | .uncaught => .propagated st
  | .caught e =>
    match inp.detected with
    | none => .fatalDetect st
    | some p =>
      .next ⟨p, st.history ++
        [⟨describe_page prev_page, inp.command, errName e⟩]⟩
  | .ok v =>
    match execReturnValue v with
    | some r =>
      if r.is_visible then
        .next ⟨r, st.history ++
          [⟨describe_page prev_page, inp.command, describe_page r⟩]⟩
      else
        match inp.detected with
        | none => .fatalDetect st
        | some p =>
          .next ⟨p, st.history ++
            [⟨describe_page prev_page, inp.command, describe_page p⟩]⟩
    | none =>
      match inp.detected with
      | none => .fatalDetect st
      | some p =>
        .next ⟨p, st.history ++
          [⟨describe_page prev_page, inp.command, describe_page p⟩]⟩

/-- How a run of several iterations ended. -/
inductive RunResult
  | done (st : LoopState)
  | fatalDetect (st : LoopState)
  | propagated (st : LoopState)
deriving DecidableEq

/-- Iterate `loop_step` over a list of per-iteration external inputs,
stopping early on a fatal assertion or a propagated exception. -/
def loop_run (st : LoopState) : List IterInput → RunResult
  | [] => .done st
  | inp :: rest =>
    match loop_step st inp with
    | .next st2 => loop_run st2 rest
    | .fatalDetect s => .fatalDetect s
    | .propagated s => .propagated s

/-- The observable effects of one loop iteration. -/
inductive LoopEvent
  | chooseCommand
  | settleDelay
  | executeCommand
  | pollDetection
  | appendHistory
deriving DecidableEq

/-- The effects of one iteration in source order: the command is chosen
(src/gpt3.py lines 83-94), `time.sleep(1)` runs (line 95), the command is
executed (line 100); then — unless an uncaught exception is propagating —
either the visible `ret` page is adopted or detection is polled
(lines 107-113), and on success the history entry is appended
(lines 115-120). -/
def iteration_events (inp : IterInput) : List LoopEvent :=
  [.chooseCommand, .settleDelay, .executeCommand] ++
    match inp.exec with
    | .uncaught => []
    | .caught _ =>
      .pollDetection :: (match inp.detected with
        | some _ => [.appendHistory]
        | none => [])
    | .ok v =>
      match execReturnValue v with
      | some r =>
        if r.is_visible then [.appendHistory]
        else .pollDetection :: (match inp.detected with
          | some _ => [.appendHistory]
          | none => [])
      | none =>
        .pollDetection :: (match inp.detected with
          | some _ => [.appendHistory]
          | none => [])

/-- Shape of a Python exception class name as recorded by
`type(e).__name__`: a nonempty identifier beginning with an ASCII letter
or an underscore.  The four whitelisted base names and every subclass name
an executed command can raise (e.g. `IndentationError`,
`UnboundLocalError`) have this shape. -/
def isClassName (s : Str) : Bool :=
  match s with
  | [] => false
  | c :: _ => ('A' ≤ c && c ≤ 'Z') || ('a' ≤ c && c ≤ 'z') || c = '_'

/-! ### The command catalog of `get_gpt_command` -/

/-- Lexicographic comparison of strings by code point, as Python's
`list.sort` compares the name components of `(name, member)` pairs. -/
def strLE : Str → Str → Bool
  | [], _ => true
  | _ :: _, [] => false
  | a :: as, b :: bs =>
    if a.toNat < b.toNat then true
    else if b.toNat < a.toNat then false
    else strLE as bs

/-- The by-name ordering that `inspect.getmembers` sorts with. -/
def byName (a b : Method) : Prop := strLE a.name b.name = true

instance : DecidableRel byName :=
  fun a b => inferInstanceAs (Decidable (strLE a.name b.name = true))

lemma strLE_total : ∀ a b : Str, strLE a b = true ∨ strLE b a = true := by
  intro a
  induction a with
  | nil => intro b; left; rfl
  | cons x xs ih =>
    intro b
    cases b with
    | nil => right; rfl
    | cons y ys =>
      rcases Nat.lt_trichotomy x.toNat y.toNat with h | h | h
      · left
        simp [strLE, h]
      · rcases ih ys with h2 | h2
        · left
          simp [strLE, h, h2]
        · right
          simp [strLE, h.symm, h2]
      · right
        simp [strLE, h]

lemma strLE_trans : ∀ a b c : Str,
    strLE a b = true → strLE b c = true → strLE a c = true := by
  intro a
  induction a with
  | nil => intro b c _ _; rfl
  | cons x xs ih =>
    intro b c hab hbc
    cases b with
    | nil => simp [strLE] at hab
    | cons y ys =>
      cases c with
      | nil => simp [strLE] at hbc
      | cons z zs =>
        simp only [strLE] at hab hbc ⊢
        by_cases hxy : x.toNat < y.toNat
        · by_cases hyz : y.toNat < z.toNat
          · rw [if_pos (Nat.lt_trans hxy hyz)]
          · rw [if_neg hyz] at hbc
            by_cases hzy : z.toNat < y.toNat
            · rw [if_pos hzy] at hbc
              exact absurd hbc Bool.false_ne_true
            · have hyz2 : y.toNat = z.toNat := Nat.le_antisymm
                (Nat.le_of_not_lt hzy) (Nat.le_of_not_lt hyz)
              rw [if_pos (hyz2 ▸ hxy)]
        · by_cases hyx : y.toNat < x.toNat
          · rw [if_neg hxy, if_pos hyx] at hab
            exact absurd hab Bool.false_ne_true
          · have hxy2 : x.toNat = y.toNat := Nat.le_antisymm
              (Nat.le_of_not_lt hyx) (Nat.le_of_not_lt hxy)
            rw [if_neg hxy, if_neg hyx] at hab
            by_cases hyz : y.toNat < z.toNat
            · rw [if_pos (hxy2 ▸ hyz)]
            · by_cases hzy : z.toNat < y.toNat
              · rw [if_neg hyz, if_pos hzy] at hbc
                exact absurd hbc Bool.false_ne_true
              · have hyz2 : y.toNat = z.toNat := Nat.le_antisymm
                  (Nat.le_of_not_lt hzy) (Nat.le_of_not_lt hyz)
                rw [if_neg hyz, if_neg hzy] at hbc
                have hxz : ¬ x.toNat < z.toNat := hyz2 ▸ hxy2 ▸ hxy
                have hzx : ¬ z.toNat < x.toNat := hyz2 ▸ hxy2 ▸ hxy
                rw [if_neg hxz, if_neg hzx]
                exact ih ys zs hab hbc

instance : IsTotal Method byName :=
  ⟨fun a b => strLE_total a.name b.name⟩

instance : IsTrans Method byName :=
  ⟨fun a b c hab hbc => strLE_trans a.name b.name c.name hab hbc⟩

/-- Python's `inspect.getmembers(page, inspect.ismethod)`: the bound
methods of the page as `(name, method)` pairs, sorted by name (the
documented behaviour of `inspect.getmembers`, which ends with
`results.sort(key=lambda pair: pair[0])`). -/
def getmembers (page : Page) : List Method :=
  List.insertionSort byName page.methods

/-- Python `not name.startswith("_")` (src/gpt3.py line 128). -/
def is_public (m : Method) : Bool :=
  match m.name with
  | '_' :: _ => false
  | _ => true

/-- The formatted line `    page.<name><signature>` (src/gpt3.py line 126). -/
def format_command (m : Method) : Str :=
  "    page.".toList ++ m.name ++ m.signature

/-- The COMMANDS block of `get_gpt_command` (src/gpt3.py lines 125-128),
as the list of its lines: the formatted public bound methods, in the order
`inspect.getmembers` yields them. -/
def command_catalog (page : Page) : List Str :=
  ((getmembers page).filter is_public).map format_command

/-! ### Sample pages used by the concrete witnesses and counterexamples -/

/-- A sample visible page of the appletv test pack. -/
def pageA : Page :=
  ⟨"<Home(selected_app=1)>".toList, "tests.appletv.pages".toList, true, []⟩

/-- A second, distinct sample visible page. -/
def pageB : Page :=
  ⟨"<YouTubeHome(x=2)>".toList, "tests.appletv.pages".toList, true, []⟩

/-- A third sample visible page, distinct from the first two. -/
def pageC : Page :=
  ⟨"<Search(q=3)>".toList, "tests.appletv.pages".toList, true, []⟩

/-- A sample page with two public bound methods (declared out of
alphabetical order) and one internally-named one. -/
def pageM : Page :=
  ⟨"<R()>".toList, "m".toList, true,
   [⟨"select".toList, "(x)".toList⟩, ⟨"back".toList, "()".toList⟩,
    ⟨"_hidden".toList, "()".toList⟩]⟩

/-! ### Lemmas about the loop -/

lemma isClassName_ne_describe (s : Str) (hs : isClassName s = true) (p : Page) :
    s ≠ describe_page p := by
  intro h
  cases s with
  | nil => exact absurd hs (by decide)
  | cons c cs =>
    have hc : some c = some '<' := congrArg List.head? h
    injection hc with hc
    subst hc
    have hf : isClassName ('<' :: cs) = false := rfl
    rw [hf] at hs
    exact absurd hs Bool.false_ne_true

lemma loop_step_next_history (st : LoopState) (inp : IterInput) (st2 : LoopState)
    (h : loop_step st inp = .next st2) :
    ∃ e : HistoryEntry, st2.history = st.history ++ [e] ∧
      ((∃ p : Page, inp.detected = some p ∧ e.outcome = describe_page p) ∨
       (∃ err : CaughtError, inp.exec = .caught err ∧ e.outcome = errName err)) := by
  obtain ⟨cmd, ex, det⟩ := inp
  cases ex with
  | uncaught => exact absurd h (by simp [loop_step])
  | caught err =>
    cases det with
    | none => exact absurd h (by simp [loop_step])
    | some p =>
      simp only [loop_step, StepResult.next.injEq] at h
      subst h
      exact ⟨⟨describe_page st.page, cmd, errName err⟩, rfl,
        Or.inr ⟨err, rfl, rfl⟩⟩
  | ok v =>
    cases det with
    | none => exact absurd h (by simp [loop_step, execReturnValue])
    | some p =>
      simp only [loop_step, execReturnValue, StepResult.next.injEq] at h
      subst h
      exact ⟨⟨describe_page st.page, cmd, describe_page p⟩, rfl,
        Or.inl ⟨p, rfl, rfl⟩⟩

lemma loop_run_done (inputs : List IterInput) :
    ∀ st final : LoopState, loop_run st inputs = .done final →
      ∃ new : List HistoryEntry, final.history = st.history ++ new ∧
        new.length = inputs.length ∧
        ∀ e ∈ new,
          (∃ p : Page, e.outcome = describe_page p) ∨
          (∃ err : CaughtError, e.outcome = errName err ∧
            ∃ inp ∈ inputs, inp.exec = .caught err) := by
  induction inputs with
  | nil =>
    intro st final h
    simp only [loop_run, RunResult.done.injEq] at h
    subst h
    exact ⟨[], by simp, rfl, by simp⟩
  | cons inp rest ih =>
    intro st final h
    cases hs : loop_step st inp with
    | next st2 =>
      rw [loop_run, hs] at h
      obtain ⟨new, hfin, hlen, hval⟩ := ih st2 final h
      obtain ⟨e, he, hev⟩ := loop_step_next_history st inp st2 hs
      refine ⟨e :: new, ?_, by simp [hlen], ?_⟩
      · rw [hfin, he]
        simp
      · intro x hx
        rcases List.mem_cons.mp hx with rfl | hx
        · rcases hev with ⟨p, -, hout⟩ | ⟨err, hex, hout⟩
          · exact Or.inl ⟨p, hout⟩
          · exact Or.inr ⟨err, hout, inp, List.mem_cons_self inp rest, hex⟩
        · rcases hval x hx with hd | ⟨err, hout, inp2, hmem, hex⟩
          · exact Or.inl hd
          · exact Or.inr ⟨err, hout, inp2, List.mem_cons_of_mem inp hmem, hex⟩
    | fatalDetect s =>
      rw [loop_run, hs] at h
      exact absurd h (by simp)
    | propagated s =>
      rw [loop_run, hs] at h
      exact absurd h (by simp)

lemma loop_run_append (l1 l2 : List IterInput) :
    ∀ st : LoopState, loop_run st (l1 ++ l2) =
      match loop_run st l1 with
      | .done m => loop_run m l2
      | .fatalDetect s => .fatalDetect s
      | .propagated s => .propagated s := by
  induction l1 with
  | nil => intro st; simp [loop_run]
  | cons inp rest ih =>
    intro st
    rw [List.cons_append, loop_run, loop_run]
    cases loop_step st inp with
    | next st2 => exact ih st2
    | fatalDetect s => rfl
    | propagated s => rfl

/-! ### The claims about the loop -/

/-- Claim C1: exactly instances of the four whitelisted failure classes
(SyntaxError, NameError, AttributeError, FileNotFoundError) are caught —
each caught exception's base class is one of the four, named in the
whitelist — and converted into the iteration's recoverable outcome,
recorded under the instance's dynamic class name `type(e).__name__`; an
error of any other kind is not caught: the loop records no history entry
for that iteration and terminates by propagation. -/
theorem command_error_whitelist (st : LoopState) (inp : IterInput) :
    (∀ e : CaughtError, inp.exec = .caught e →
      className e.base ∈ errorNames ∧
      (inp.detected = none → loop_step st inp = .fatalDetect st) ∧
      (∀ p : Page, inp.detected = some p →
        loop_step st inp = .next ⟨p, st.history ++
          [⟨describe_page st.page, inp.command, errName e⟩]⟩)) ∧
    (inp.exec = .uncaught →
      loop_step st inp = .propagated st ∧
      ∀ rest : List IterInput, loop_run st (inp :: rest) = .propagated st) := by
  obtain ⟨cmd, ex, det⟩ := inp
  constructor
  · rintro e rfl
    refine ⟨?_, ?_, ?_⟩
    · rcases e with ⟨b, n⟩
      cases b <;> simp [className, errorNames]
    · rintro rfl
      rfl
    · rintro p rfl
      rfl
  · rintro rfl
    exact ⟨rfl, fun rest => rfl⟩

/-- Witness for `command_error_whitelist`: a caught direct NameError
instance with a successful re-detection, and an uncaught error terminating
a run. -/
theorem command_error_whitelist_witness :
    loop_step ⟨pageA, []⟩
      ⟨"cmd".toList, .caught ⟨.nameError, "NameError".toList⟩, some pageB⟩ =
      .next ⟨pageB, [⟨describe_page pageA, "cmd".toList, "NameError".toList⟩]⟩ ∧
    loop_run ⟨pageA, []⟩ [⟨"cmd".toList, .uncaught, some pageB⟩,
      ⟨"c2".toList, .ok none, some pageC⟩] = .propagated ⟨pageA, []⟩ :=
  ⟨((command_error_whitelist ⟨pageA, []⟩
      ⟨"cmd".toList, .caught ⟨.nameError, "NameError".toList⟩, some pageB⟩).1
      ⟨CaughtClass.nameError, "NameError".toList⟩ rfl).2.2 pageB rfl,
   ((command_error_whitelist ⟨pageA, []⟩
      ⟨"cmd".toList, .uncaught, some pageB⟩).2 rfl).2
      [⟨"c2".toList, .ok none, some pageC⟩]⟩

/-- Claim C3 (code evaluation): Python's `exec()` returns `None` whatever
the executed statement evaluated to, so the branch that would adopt a
visible returned page is dead: even when the command's own value is a
currently-visible page, the loop polls detection and adopts the detector's
page — and fails fatally when nothing is detected within the timeout. -/
theorem visible_result_not_adopted :
    pageB.is_visible = true ∧ pageC ≠ pageB ∧
    loop_step ⟨pageA, []⟩ ⟨"page.launch(1)".toList, .ok (some pageB), some pageC⟩ =
      .next ⟨pageC,
        [⟨describe_page pageA, "page.launch(1)".toList, describe_page pageC⟩]⟩ ∧
    loop_step ⟨pageA, []⟩ ⟨"page.launch(1)".toList, .ok (some pageB), none⟩ =
      .fatalDetect ⟨pageA, []⟩ :=
  ⟨rfl, by decide, rfl, rfl⟩

/-- Claim C7 (amended): a run of N completed iterations appends exactly N
history entries in order (each intermediate history is a prefix of the
final one, nothing is removed or reordered), and every entry's outcome is
either a page description or the dynamic class name `type(e).__name__` of
the whitelisted-class exception instance caught in that run — a direct
instance records one of the four base names, a subclass instance records
its own name — and an outcome of class-name shape is never also a page
description. -/
theorem history_invariant (p0 : Page) (inputs : List IterInput)
    (final : LoopState) (h : loop_run ⟨p0, []⟩ inputs = .done final) :
    final.history.length = inputs.length ∧
    (∀ (k : Nat) (mid : LoopState),
      loop_run ⟨p0, []⟩ (inputs.take k) = .done mid →
        mid.history <+: final.history) ∧
    (∀ e ∈ final.history,
      (∃ p : Page, e.outcome = describe_page p) ∨
      (∃ err : CaughtError, e.outcome = errName err ∧
        ∃ inp ∈ inputs, inp.exec = .caught err)) ∧
    (∀ e ∈ final.history, isClassName e.outcome = true →
      ¬ ∃ p : Page, e.outcome = describe_page p) := by
  obtain ⟨new, hfin, hlen, hval⟩ := loop_run_done inputs ⟨p0, []⟩ final h
  have hfin2 : final.history = new := by simpa using hfin
  refine ⟨by rw [hfin2, hlen], ?_, ?_, ?_⟩
  · intro k mid hmid
    have hsplit := loop_run_append (inputs.take k) (inputs.drop k) ⟨p0, []⟩
    rw [List.take_append_drop, h, hmid] at hsplit
    obtain ⟨new2, hfin3, -, -⟩ :=
      loop_run_done (inputs.drop k) mid final hsplit.symm
    exact ⟨new2, hfin3.symm⟩
  · intro e he
    rw [hfin2] at he
    exact hval e he
  · rintro e he hcn ⟨p, hp⟩
    exact absurd hp (isClassName_ne_describe e.outcome hcn p)

/-- Witness for `history_invariant`: a two-iteration run (one success, one
caught direct SyntaxError instance) ends with exactly two history
entries. -/
theorem history_invariant_witness :
    (LoopState.mk pageA
      [⟨describe_page pageA, "c1".toList, describe_page pageB⟩,
       ⟨describe_page pageB, "c2".toList, "SyntaxError".toList⟩]).history.length
      = 2 :=
  (history_invariant pageA
    [⟨"c1".toList, .ok none, some pageB⟩,
     ⟨"c2".toList, .caught ⟨.syntaxError, "SyntaxError".toList⟩, some pageA⟩]
    ⟨pageA, [⟨describe_page pageA, "c1".toList, describe_page pageB⟩,
             ⟨describe_page pageB, "c2".toList, "SyntaxError".toList⟩]⟩ rfl).1

/-- Claim C7 (counterexample): the except clause also catches subclass
instances of the whitelisted classes, and line 117 records their dynamic
class name — executing the truncated statement `if True:` (a one-line GPT
reply cut at the newline) raises an IndentationError, an instance of
SyntaxError, and the completed iteration records the outcome
`IndentationError`, which is neither one of the four recognized error-kind
names nor a page description. -/
theorem history_four_names_counterexample :
    loop_run ⟨pageA, []⟩
      [⟨"if True:".toList,
        .caught ⟨.syntaxError, "IndentationError".toList⟩, some pageB⟩] =
      .done ⟨pageB,
        [⟨describe_page pageA, "if True:".toList, "IndentationError".toList⟩]⟩ ∧
    "IndentationError".toList ∉ errorNames ∧
    ¬ ∃ p : Page, "IndentationError".toList = describe_page p := by
  refine ⟨rfl, by decide, ?_⟩
  rintro ⟨p, hp⟩
  exact absurd hp (isClassName_ne_describe "IndentationError".toList (by decide) p)

/-- Claim C9 (amended): the fixed settle delay (`time.sleep(1)`) runs after
the command for the iteration has been chosen and before the command is
executed — and therefore also before any page detection, which only ever
happens after execution. -/
theorem settle_delay_before_execution (inp : IterInput) :
    ∃ rest : List LoopEvent,
      iteration_events inp =
        .chooseCommand :: .settleDelay :: .executeCommand :: rest ∧
      LoopEvent.settleDelay ∉ rest ∧ LoopEvent.executeCommand ∉ rest ∧
      LoopEvent.chooseCommand ∉ rest := by
  obtain ⟨cmd, ex, det⟩ := inp
  cases ex with
  | uncaught => exact ⟨[], rfl, by decide, by decide, by decide⟩
  | caught e =>
    cases det with
    | none => exact ⟨[.pollDetection], rfl, by decide, by decide, by decide⟩
    | some p =>
      exact ⟨[.pollDetection, .appendHistory], rfl, by decide, by decide, by decide⟩
  | ok v =>
    cases det with
    | none => exact ⟨[.pollDetection], rfl, by decide, by decide, by decide⟩
    | some p =>
      exact ⟨[.pollDetection, .appendHistory], rfl, by decide, by decide, by decide⟩

/-- Claim C9 (counterexample): the settle delay does not occur after the
command has been executed — in the source `time.sleep(1)` (line 95) runs
before `exec(command)` (line 100). -/
theorem settle_delay_order_counterexample :
    iteration_events ⟨"c".toList, .ok none, some pageA⟩ =
      [.chooseCommand, .settleDelay, .executeCommand, .pollDetection,
       .appendHistory] ∧
    ¬ ((iteration_events ⟨"c".toList, .ok none, some pageA⟩).indexOf
        LoopEvent.executeCommand <
      (iteration_events ⟨"c".toList, .ok none, some pageA⟩).indexOf
        LoopEvent.settleDelay) := by
  constructor
  · rfl
  · decide

/-- Claim C2 (amended): the prompt renders the history as one line per
entry of the form `    <previousPageDescription> : <command>` — each line
contains the entry's previous-page description and its command text, and
is independent of (omits) the entry's outcome. -/
theorem history_line_rendering (h : List HistoryEntry) :
    (h.map render_history_line).length = h.length ∧
    render_history h =
      List.intercalate "\n".toList (h.map render_history_line) ∧
    ∀ e ∈ h,
      render_history_line e =
        "    ".toList ++ e.prev_desc ++ " : ".toList ++ e.command ∧
      e.prev_desc <:+: render_history_line e ∧
      e.command <:+: render_history_line e ∧
      ∀ c : Str, render_history_line ⟨e.prev_desc, e.command, c⟩ =
        render_history_line e := by
  refine ⟨by simp, rfl, ?_⟩
  intro e _
  refine ⟨rfl, ?_, ?_, fun c => rfl⟩
  · exact ⟨"    ".toList, " : ".toList ++ e.command, by simp [render_history_line]⟩
  · exact ⟨"    ".toList ++ e.prev_desc ++ " : ".toList, [],
      by simp [render_history_line]⟩

/-- Witness for `history_line_rendering` on a one-entry history. -/
theorem history_line_rendering_witness :
    ("P".toList <:+:
      render_history_line ⟨"P".toList, "c".toList, "o".toList⟩) ∧
    ("c".toList <:+:
      render_history_line ⟨"P".toList, "c".toList, "o".toList⟩) :=
  ⟨((history_line_rendering [⟨"P".toList, "c".toList, "o".toList⟩]).2.2
      ⟨"P".toList, "c".toList, "o".toList⟩ (by decide)).2.1,
   ((history_line_rendering [⟨"P".toList, "c".toList, "o".toList⟩]).2.2
      ⟨"P".toList, "c".toList, "o".toList⟩ (by decide)).2.2.1⟩

/-- Claim C2 (counterexample): the rendered history line carries the
command and not the outcome — for the entry `(P, cmd, OUT)` the line is
`    P : cmd`, the outcome `OUT` does not occur in it, and the rendering
differs from the claimed `    P : OUT`. -/
theorem history_line_counterexample :
    render_history_line ⟨"P".toList, "cmd".toList, "OUT".toList⟩ =
      "    P : cmd".toList ∧
    ¬ ("OUT".toList <:+:
      render_history_line ⟨"P".toList, "cmd".toList, "OUT".toList⟩) ∧
    render_history [⟨"P".toList, "cmd".toList, "OUT".toList⟩] ≠
      "    P : OUT".toList := by
  refine ⟨by decide, by decide, by decide⟩

/-- Claim C6 (amended): the command catalog lists exactly the public (not
underscore-prefixed) bound methods of the page, each formatted as
`    page.<name><signature>`, in the order `inspect.getmembers` yields
them — sorted alphabetically by method name, not in discovery order. -/
theorem command_catalog_sorted (page : Page) :
    ∃ ms : List Method,
      command_catalog page = ms.map format_command ∧
      ms.Perm (page.methods.filter is_public) ∧
      List.Sorted byName ms := by
  refine ⟨(getmembers page).filter is_public, rfl, ?_, ?_⟩
  · exact (List.perm_insertionSort byName page.methods).filter is_public
  · exact List.Pairwise.sublist (List.filter_sublist _)
      (List.sorted_insertionSort byName page.methods)

/-- Claim C6 (counterexample): for a page declaring `select` before
`back`, the catalog lists `back` first — alphabetical order, not discovery
order. -/
theorem command_catalog_not_discovery_order :
    command_catalog pageM =
      ["    page.back()".toList, "    page.select(x)".toList] ∧
    command_catalog pageM ≠
      (pageM.methods.filter is_public).map format_command := by
  refine ⟨by decide, by decide⟩
